import Mathlib

/-!
Shallow embedding of the data-acquisition core of `binance_market_async_crawler`
(`src/bmac/market_api.py` and `src/bhds/aws_util.py`).

Modelling conventions:
* timestamps (`pd.Timestamp`, server times, `run_time`) are milliseconds since
  the epoch, as `Int`; time-zone conversion (`DEFAULT_TZ`) is display-only and
  does not change the instant, so it is not modelled;
* pandas float columns are idealised as `Rat` where only equality/order matters;
* a Python coroutine that can raise is a function into `Except PyErr _`;
* the poller's unbounded `while True` loop is embedded with explicit fuel,
  returning `none` when the fuel runs out before the loop exits.
-/

namespace Crawler

/-- Python-level exceptions raised by the embedded code. -/
inductive PyErr where
  | typeError
  | invalidOperation
  | keyError
  | netError (msg : String)
deriving DecidableEq, Repr

/-- A parsed candle row of the dataframe built by `BinanceMarketApi.get_candle`
(columns after `drop(columns='ignore')`). -/
structure Candle where
  candle_begin_time : Int
  opn : Rat
  high : Rat
  low : Rat
  close : Rat
  volume : Rat
  close_time : Int
  quote_volume : Rat
  trade_num : Rat
  taker_buy_base_asset_volume : Rat
  taker_buy_quote_asset_volume : Rat
deriving DecidableEq, Repr

/-- The pandas reduction `df['candle_begin_time'].max()`; `none` is the NaT
produced on an empty frame. -/
def maxBeginTime (df : List Candle) : Option Int :=
  (df.map (·.candle_begin_time)).max?

/-- The test `df['candle_begin_time'].max() >= run_time` from
`fetch_recent_closed_candle`; on an empty frame the pandas comparison with NaT
is false. -/
def batchClosed (df : List Candle) (run_time : Int) : Bool :=
  match maxBeginTime df with
  | none => false
  | some m => decide (run_time ≤ m)

/-- The row filter `df[df['candle_begin_time'] < run_time]`. -/
def closedSubset (df : List Candle) (run_time : Int) : List Candle :=
  df.filter (fun c => c.candle_begin_time < run_time)

/-- The `while True` loop body of `BinanceMarketApi.fetch_recent_closed_candle`.
`feed i` is the dataframe returned by `get_candle` on the i-th poll, `now i`
the value of `now_time()` on the i-th poll, and `timeout` the
`candle_close_timeout_sec` bound (same time unit as `now`).  The loop first
checks closure, then the timeout, then sleeps and re-polls; fuel exhaustion is
`none`. -/
def fetch_loop (feed : Nat → List Candle) (now : Nat → Int) (run_time timeout : Int) :
    Nat → Nat → Option (List Candle × Bool)
  | 0, _ => none
  | fuel + 1, i =>
    if batchClosed (feed i) run_time then
      some (closedSubset (feed i) run_time, true)
    else if timeout < now i - run_time then
      some (closedSubset (feed i) run_time, false)
    else
      fetch_loop feed now run_time timeout fuel (i + 1)

/-- `BinanceMarketApi.fetch_recent_closed_candle`: run the poll loop from the
first poll. -/
def fetch_recent_closed_candle (feed : Nat → List Candle) (now : Nat → Int)
    (run_time timeout : Int) (fuel : Nat) : Option (List Candle × Bool) :=
  fetch_loop feed now run_time timeout fuel 0

theorem max?_int_spec {l : List Int} {m : Int} (h : l.max? = some m) :
    m ∈ l ∧ ∀ b ∈ l, b ≤ m := by
  have hiff := @List.max?_eq_some_iff Int m _ _ ⟨fun h1 h2 => le_antisymm h1 h2⟩
    (fun a => le_refl a) (fun a b => max_choice a b) (fun a b c => max_le_iff) l
  exact hiff.1 h

theorem batchClosed_iff (df : List Candle) (run_time : Int) :
    batchClosed df run_time = true ↔ ∃ c ∈ df, run_time ≤ c.candle_begin_time := by
  constructor
  · intro h
    unfold batchClosed maxBeginTime at h
    rcases hm : (df.map (·.candle_begin_time)).max? with _ | m
    · rw [hm] at h; simp at h
    · rw [hm] at h
      simp only [decide_eq_true_eq] at h
      obtain ⟨hmem, -⟩ := max?_int_spec hm
      obtain ⟨c, hc, hceq⟩ := List.mem_map.1 hmem
      exact ⟨c, hc, hceq ▸ h⟩
  · rintro ⟨c, hc, hrc⟩
    unfold batchClosed maxBeginTime
    have hmem : c.candle_begin_time ∈ df.map (·.candle_begin_time) :=
      List.mem_map.2 ⟨c, hc, rfl⟩
    have hsome : (df.map (·.candle_begin_time)).max?.isSome :=
      List.isSome_max?_of_mem hmem
    obtain ⟨m, hm⟩ := Option.isSome_iff_exists.1 hsome
    rw [hm]
    obtain ⟨-, hub⟩ := max?_int_spec hm
    simp only [decide_eq_true_eq]
    exact le_trans hrc (hub _ hmem)

/-- C1.  `fetch_recent_closed_candle` confirms closure exactly when a fetched
batch contains a candle with open time ≥ `run_time`: whenever it returns the
closed flag `true` the returned rows are exactly the rows of the last fetched
batch with open time strictly below `run_time`, where that last batch is the
first one containing such a candle (no earlier poll closed or timed out); and
conversely, as soon as the batch fetched on the current poll contains such a
candle the loop stops at once with flag `true` and that filtered subset. -/
theorem fetch_recent_closed_candle_closed_iff (feed : Nat → List Candle)
    (now : Nat → Int) (run_time timeout : Int) (fuel i : Nat) :
    (∀ r, fetch_loop feed now run_time timeout fuel i = some (r, true) →
        ∃ k, i ≤ k ∧ (∃ c ∈ feed k, run_time ≤ c.candle_begin_time) ∧
          (∀ j, i ≤ j → j < k → batchClosed (feed j) run_time = false ∧
              ¬ timeout < now j - run_time) ∧
          r = closedSubset (feed k) run_time) ∧
    ((∃ c ∈ feed i, run_time ≤ c.candle_begin_time) → 0 < fuel →
        fetch_loop feed now run_time timeout fuel i =
          some (closedSubset (feed i) run_time, true)) := by
  constructor
  · induction fuel generalizing i with
    | zero => intro r h; simp [fetch_loop] at h
    | succ n ih =>
      intro r h
      by_cases hc : batchClosed (feed i) run_time = true
      · refine ⟨i, le_refl i, (batchClosed_iff _ _).1 hc, ?_, ?_⟩
        · intro j hij hji; omega
        · simp only [fetch_loop, hc, if_true] at h
          exact (Prod.mk.injEq _ _ _ _ ▸ (Option.some.injEq _ _ ▸ h)).1.symm
      · have hc' : batchClosed (feed i) run_time = false := by
          cases hb : batchClosed (feed i) run_time
          · rfl
          · exact absurd hb hc
        by_cases ht : timeout < now i - run_time
        · simp only [fetch_loop, hc', if_false, Bool.false_eq_true, ht, if_true] at h
          have : (false : Bool) = true := congrArg Prod.snd (Option.some.inj h)
          simp at this
        · simp only [fetch_loop, hc', Bool.false_eq_true, if_false, ht, if_false] at h
          obtain ⟨k, hik, hex, hmid, hr⟩ := ih (i + 1) r h
          refine ⟨k, by omega, hex, ?_, hr⟩
          intro j hij hjk
          rcases Nat.eq_or_lt_of_le hij with heq | hlt
          · exact heq ▸ ⟨hc', ht⟩
          · exact hmid j hlt hjk
  · intro hex hfuel
    have hc : batchClosed (feed i) run_time = true := (batchClosed_iff _ _).2 hex
    cases fuel with
    | zero => omega
    | succ n => simp [fetch_loop, hc]

/-- Synthetic feed for the closed-on-second-poll scenario: the first poll sees
only an older candle, the second poll also sees the candle opening at
`run_time = 100`. -/
def demoCandleAt (t : Int) : Candle :=
  ⟨t, 1, 1, 1, 1, 1, t + 59999, 1, 1, 1, 1⟩

def demoFeedClosed : Nat → List Candle :=
  fun i => if i = 0 then [demoCandleAt 40] else [demoCandleAt 40, demoCandleAt 100]

def demoNow : Nat → Int :=
  fun i => 90 + 20 * i

theorem fetch_recent_closed_candle_closed_iff_witness :
    (∃ c ∈ demoFeedClosed 1, (100 : Int) ≤ c.candle_begin_time) ∧
      fetch_loop demoFeedClosed demoNow 100 5 1 1 =
        some (closedSubset (demoFeedClosed 1) 100, true) :=
  ⟨by decide,
    (fetch_recent_closed_candle_closed_iff demoFeedClosed demoNow 100 5 1 1).2
      (by decide) (by decide)⟩

/-- C2.  If no fetched batch ever contains a candle with open time ≥ `run_time`
and the wall clock strictly exceeds `run_time + timeout` by poll `m`, then the
poller terminates no later than poll `m`, returning the closed flag `false`
together with the sub-`run_time` rows of the last fetched batch, as an ordinary
return value; and with such a feed the closed flag can never be `true`. -/
theorem fetch_recent_closed_candle_timeout (feed : Nat → List Candle)
    (now : Nat → Int) (run_time timeout : Int) (m : Nat)
    (hnc : ∀ k, batchClosed (feed k) run_time = false)
    (ht : timeout < now m - run_time) :
    (∀ fuel, m < fuel →
        ∃ k, k ≤ m ∧ fetch_recent_closed_candle feed now run_time timeout fuel =
          some (closedSubset (feed k) run_time, false)) ∧
    (∀ fuel i r, fetch_loop feed now run_time timeout fuel i ≠ some (r, true)) := by
  have haux : ∀ fuel i, i ≤ m → m < i + fuel →
      ∃ k, i ≤ k ∧ k ≤ m ∧ fetch_loop feed now run_time timeout fuel i =
        some (closedSubset (feed k) run_time, false) := by
    intro fuel
    induction fuel with
    | zero => intro i him hm; omega
    | succ n ih =>
      intro i him hm
      by_cases hti : timeout < now i - run_time
      · exact ⟨i, le_refl i, him, by simp [fetch_loop, hnc i, hti]⟩
      · have hineq : i ≠ m := fun heq => hti (heq ▸ ht)
        obtain ⟨k, hik, hkm, hres⟩ := ih (i + 1) (by omega) (by omega)
        exact ⟨k, by omega, hkm, by simp [fetch_loop, hnc i, hti]; exact hres⟩
  constructor
  · intro fuel hfuel
    obtain ⟨k, -, hkm, hres⟩ := haux fuel 0 (Nat.zero_le m) (by omega)
    exact ⟨k, hkm, hres⟩
  · intro fuel
    induction fuel with
    | zero => intro i r h; simp [fetch_loop] at h
    | succ n ih =>
      intro i r h
      by_cases hti : timeout < now i - run_time
      · simp only [fetch_loop, hnc i, Bool.false_eq_true, if_false, hti, if_true] at h
        have : (false : Bool) = true := congrArg Prod.snd (Option.some.inj h)
        simp at this
      · simp only [fetch_loop, hnc i, Bool.false_eq_true, if_false, hti, if_false] at h
        exact ih (i + 1) r h

/-- Synthetic feed whose candles never reach `run_time = 100`. -/
def demoFeedStale : Nat → List Candle :=
  fun _ => [demoCandleAt 40]

theorem fetch_recent_closed_candle_timeout_witness :
    (∃ k, k ≤ 1 ∧ fetch_recent_closed_candle demoFeedStale demoNow 100 5 3 =
        some (closedSubset (demoFeedStale k) 100, false)) ∧
    (∀ fuel i r, fetch_loop demoFeedStale demoNow 100 5 fuel i ≠ some (r, true)) := by
  have h := fetch_recent_closed_candle_timeout demoFeedStale demoNow 100 5 1
    (fun _ => (by decide : batchClosed [demoCandleAt 40] 100 = false)) (by decide)
  exact ⟨h.1 3 (by decide), h.2⟩

/-! Embedding of `src/bhds/aws_util.py` `aws_list_dir`.  A response page
(`ListBucketResult`) carries either a `CommonPrefixes` block, a `Contents`
block, or neither, plus the `IsTruncated` flag and, when truncated, the
`NextMarker` cursor used to request the next page.  The backing listing is
modelled as the sequence of pages the endpoint serves; the per-page
`async_retry_getter` either yields the page or aborts the whole listing, so
the loop is stated over the successfully fetched pages.  A key is the
character sequence of the Python string (Lean string order does not compute,
so keys are kept as `List Char`, which carries the same lexicographic
order). -/

abbrev Key := List Char

inductive PageBody where
  | dirs (ps : List Key)
  | objects (ks : List Key)
  | neither
deriving DecidableEq, Repr

structure ListingPage where
  body : PageBody
  isTruncated : Bool
  nextMarker : Key
deriving DecidableEq, Repr

/-- The entries one loop iteration appends to `results`: the `Prefix` values of
a `CommonPrefixes` block, or the `Key` values of a `Contents` block. -/
def pageEntries (p : ListingPage) : List Key :=
  match p.body with
  | .dirs ps => ps
  | .objects ks => ks
  | .neither => []

/-- The accumulation loop of `aws_list_dir`: consume pages until one reports
`IsTruncated == 'false'`. -/
def collectPages : List ListingPage → List Key
  | [] => []
  | p :: rest => pageEntries p ++ (if p.isTruncated then collectPages rest else [])

theorem collectPages_cons (p : ListingPage) (rest : List ListingPage) :
    collectPages (p :: rest) =
      pageEntries p ++ (if p.isTruncated then collectPages rest else []) :=
  rfl

/-- `aws_list_dir`: accumulate all pages, then `sorted(set(results))`. -/
def aws_list_dir (pages : List ListingPage) : List Key :=
  List.insertionSort (· ≤ ·) (collectPages pages).dedup

/-- A backing listing as in the claim: at least one page, every page before the
last truncated, the final page not truncated. -/
def goodListing : List ListingPage → Bool
  | [] => false
  | [p] => !p.isTruncated
  | p :: rest => p.isTruncated && goodListing rest

theorem collectPages_of_goodListing (pages : List ListingPage)
    (h : goodListing pages = true) :
    collectPages pages = (pages.map pageEntries).flatten := by
  induction pages with
  | nil => simp [goodListing] at h
  | cons p rest ih =>
    cases rest with
    | nil =>
      have hp : p.isTruncated = false := by
        simpa [goodListing] using h
      simp [collectPages, hp]
    | cons q rest' =>
      have hp : p.isTruncated = true ∧ goodListing (q :: rest') = true := by
        simpa [goodListing] using h
      rw [collectPages_cons, hp.1, if_pos rfl, ih hp.2]
      simp

/-- C3.  For a finite backing listing whose truncated pages all precede a final
non-truncated page, `aws_list_dir` returns exactly the entries of the union of
all pages — overlapping boundary entries included only once — with no
duplicates and sorted ascending. -/
theorem aws_list_dir_complete (pages : List ListingPage)
    (h : goodListing pages = true) :
    (∀ s, s ∈ aws_list_dir pages ↔ ∃ p ∈ pages, s ∈ pageEntries p) ∧
    (aws_list_dir pages).Nodup ∧
    List.Sorted (· ≤ ·) (aws_list_dir pages) := by
  have hperm : List.Perm (aws_list_dir pages) (collectPages pages).dedup :=
    List.perm_insertionSort _ _
  refine ⟨?_, ?_, ?_⟩
  · intro s
    rw [hperm.mem_iff, List.mem_dedup, collectPages_of_goodListing pages h,
      List.mem_flatten]
    constructor
    · rintro ⟨l, hl, hsl⟩
      obtain ⟨p, hp, rfl⟩ := List.mem_map.1 hl
      exact ⟨p, hp, hsl⟩
    · rintro ⟨p, hp, hsp⟩
      exact ⟨pageEntries p, List.mem_map.2 ⟨p, hp, rfl⟩, hsp⟩
  · exact hperm.nodup_iff.2 (List.nodup_dedup _)
  · exact List.sorted_insertionSort _ _

/-- A synthetic 3-page listing (truncated, truncated, final) whose page
boundaries overlap by one key. -/
def demoPages : List ListingPage :=
  [⟨.objects ["a".data, "b".data], true, "b".data⟩,
   ⟨.objects ["b".data, "c".data], true, "c".data⟩,
   ⟨.objects ["c".data, "d".data], false, []⟩]

theorem aws_list_dir_complete_witness :
    ((∀ s, s ∈ aws_list_dir demoPages ↔ ∃ p ∈ demoPages, s ∈ pageEntries p) ∧
      (aws_list_dir demoPages).Nodup ∧
      List.Sorted (· ≤ ·) (aws_list_dir demoPages)) ∧
    aws_list_dir demoPages = ["a".data, "b".data, "c".data, "d".data] :=
  ⟨aws_list_dir_complete demoPages (by decide), by decide⟩

/-! Model of Python `decimal.Decimal` restricted to finite values, as
constructed by `Decimal(<string>)` in the `parse_syminfo` class methods and
pretty-printed by `str()`.  A value is a sign, a coefficient digit list (most
significant digit first, no leading zero except for the single digit 0) and an
exponent, and `str()` is the to-scientific-string conversion of the General
Decimal Arithmetic specification that the `decimal` module implements:
fixed-point notation when `exp ≤ 0` and the adjusted exponent is at least -6,
scientific notation otherwise.  Leading/trailing whitespace stripping,
underscores, infinities and NaN payloads accepted by `Decimal` are not
reachable from this repository's inputs and are left out. -/

structure PyDec where
  neg : Bool
  coeff : List Nat
  exp : Int
deriving DecidableEq, Repr

def digitVal (c : Char) : Nat := c.toNat - 48

def digitChar : Nat → Char
  | 0 => '0'
  | 1 => '1'
  | 2 => '2'
  | 3 => '3'
  | 4 => '4'
  | 5 => '5'
  | 6 => '6'
  | 7 => '7'
  | 8 => '8'
  | _ => '9'

def splitSign : List Char → Bool × List Char
  | [] => (false, [])
  | c :: r => if c = '-' then (true, r) else (false, if c = '+' then r else c :: r)

def notExpMark (c : Char) : Bool := !(c == 'e' || c == 'E')

def splitUntilExp (cs : List Char) : List Char × List Char :=
  (cs.takeWhile notExpMark, cs.dropWhile notExpMark)

def digitsToNat (cs : List Char) : Nat :=
  cs.foldl (fun a c => 10 * a + digitVal c) 0

/-- Parse the optional exponent clause; the input is either empty or starts at
the `e`/`E` marker. -/
def parseExpPart : List Char → Option Int
  | [] => some 0
  | _ :: r =>
    match splitSign r with
    | (eneg, r1) =>
      if r1.isEmpty then none
      else if r1.all Char.isDigit then
        some (if eneg then -(digitsToNat r1 : Int) else (digitsToNat r1 : Int))
      else none

def splitDigits (cs : List Char) : List Char × List Char :=
  (cs.takeWhile Char.isDigit, cs.dropWhile Char.isDigit)

/-- Parse the mantissa `digits [. digits]` (at least one digit in total),
returning the raw coefficient digits and the fraction length. -/
def parseMant (cs : List Char) : Option (List Nat × Nat) :=
  match splitDigits cs with
  | (ip, r) =>
    match r with
    | [] => if ip.isEmpty then none else some (ip.map digitVal, 0)
    | '.' :: fr =>
      if fr.all Char.isDigit && !(ip.isEmpty && fr.isEmpty) then
        some ((ip ++ fr).map digitVal, fr.length)
      else none
    | _ => none

def stripZeros : List Nat → List Nat
  | [] => []
  | x :: r => if x = 0 then stripZeros r else x :: r

/-- Coefficient normalization: an integer has no leading zeros, and zero has
the single digit 0. -/
def normCoeff (l : List Nat) : List Nat :=
  match stripZeros l with
  | [] => [0]
  | r => r

def parseDec (cs : List Char) : Option PyDec :=
  match splitSign cs with
  | (neg, cs1) =>
    match splitUntilExp cs1 with
    | (mant, rest) =>
      match parseExpPart rest, parseMant mant with
      | some e, some (digs, fracLen) => some ⟨neg, normCoeff digs, e - (fracLen : Int)⟩
      | _, _ => none

/-- `decimal.Decimal(s)` on a string: `none` is the `InvalidOperation` raise. -/
def Dec_parse (s : String) : Option PyDec := parseDec s.data

def digitsStr (l : List Nat) : List Char := l.map digitChar

/-- Decimal digits of a natural number, most significant first. -/
def natDigits (n : Nat) : List Char := Nat.toDigits 10 n

/-- Adjusted exponent of a decimal. -/
def decAdj (d : PyDec) : Int := d.exp + d.coeff.length - 1

/-- Unsigned part of `str(d)`: fixed-point notation when `exp ≤ 0` and the
adjusted exponent is at least -6, scientific notation otherwise. -/
def decRenderBody (d : PyDec) : List Char :=
  if d.exp ≤ 0 ∧ -6 ≤ decAdj d then
    if d.exp = 0 then digitsStr d.coeff
    else if (d.coeff.length : Int) > -d.exp then
      digitsStr (d.coeff.take ((d.coeff.length : Int) + d.exp).toNat) ++
        '.' :: digitsStr (d.coeff.drop ((d.coeff.length : Int) + d.exp).toNat)
    else
      '0' :: '.' ::
        (List.replicate (-d.exp - d.coeff.length).toNat '0' ++ digitsStr d.coeff)
  else
    (match d.coeff with
     | [] => []
     | c0 :: rest =>
       digitChar c0 :: (if rest.isEmpty then [] else '.' :: digitsStr rest)) ++
    'E' :: (if decAdj d < 0 then '-' :: natDigits (decAdj d).natAbs
            else '+' :: natDigits (decAdj d).natAbs)

/-- The character sequence of `str(d)` for a finite decimal `d`. -/
def decRender (d : PyDec) : List Char :=
  if d.neg then '-' :: decRenderBody d else decRenderBody d

/-- `str(d)` for a finite decimal `d`. -/
def Dec_str (d : PyDec) : String := ⟨decRender d⟩

/-- Well-formed coefficient of a finite `Decimal`: nonempty decimal digits
without a leading zero except for zero itself. -/
def ValidDec (d : PyDec) : Prop :=
  d.coeff ≠ [] ∧ (∀ x ∈ d.coeff, x < 10) ∧ (d.coeff.head? = some 0 → d.coeff = [0])

/-- The values whose `str()` uses fixed-point notation. -/
def FixedForm (d : PyDec) : Prop :=
  d.exp ≤ 0 ∧ -6 ≤ decAdj d

/-- Integer digit value of the coefficient. -/
def digitsVal (l : List Nat) : Nat := l.foldl (fun a d => 10 * a + d) 0

/-- The rational value of a decimal; used to model the binary-float coercion
`pd.to_numeric` where only parse success and value identity matter. -/
def decToRat (d : PyDec) : Rat :=
  let m : Int := (if d.neg then -1 else 1) * (digitsVal d.coeff : Int)
  match d.exp with
  | .ofNat n => ((m * (10 : Int) ^ n : Int) : Rat)
  | .negSucc n => Rat.divInt m ((10 : Int) ^ (n + 1))

/-- `pd.to_numeric(s, errors='coerce')` on one string: `none` is the NaN
produced for an unparseable value. -/
def pd_to_numeric_coerce (s : String) : Option Rat :=
  (Dec_parse s).map decToRat

/-! Embedding of `get_from_filters` and the three variant `parse_syminfo`
class methods.  An exchange-info symbol entry is modelled with the string
fields the parsers read plus the `filters` list; each filter is its
`filterType` tag and remaining string fields.  A parsed rule is the Python
dict: an ordered list of key/value pairs, where a value is a plain string or
a `Decimal`. -/

structure SymFilter where
  filterType : String
  fields : List (String × String)
deriving DecidableEq, Repr

structure SymbolInfo where
  symbol : String
  status : String
  contractType : String
  contractStatus : String
  baseAsset : String
  quoteAsset : String
  marginAsset : String
  filters : List SymFilter
deriving DecidableEq, Repr

inductive RuleVal where
  | s (v : String)
  | dec (d : PyDec)
deriving DecidableEq, Repr

/-- A `parse_syminfo` result: the Python dict as an ordered key/value list. -/
abbrev SymRule := List (String × RuleVal)

/-- `get_from_filters(filters, filter_type, field_name)`: the first filter of
the given type supplies the field; a matching filter without the field raises
`KeyError`; no matching filter yields Python `None`. -/
def get_from_filters (filters : List SymFilter) (filter_type field_name : String) :
    Except PyErr (Option String) :=
  match filters.find? (fun f => f.filterType == filter_type) with
  | none => .ok none
  | some f =>
    match f.fields.lookup field_name with
    | none => .error .keyError
    | some v => .ok (some v)

/-- `Decimal(x)` where `x` is the result of `get_from_filters`: `Decimal(None)`
raises `TypeError`, an unparseable string raises `InvalidOperation`. -/
def pyDecimalOf (x : Except PyErr (Option String)) : Except PyErr PyDec :=
  match x with
  | .error e => .error e
  | .ok none => .error .typeError
  | .ok (some s) =>
    match Dec_parse s with
    | none => .error .invalidOperation
    | some d => .ok d

/-- `BinanceUsdtFutureMarketApi.parse_syminfo`. -/
def parse_syminfo_usdt (info : SymbolInfo) : Except PyErr SymRule :=
  match pyDecimalOf (get_from_filters info.filters "PRICE_FILTER" "tickSize"),
      pyDecimalOf (get_from_filters info.filters "LOT_SIZE" "stepSize"),
      pyDecimalOf (get_from_filters info.filters "MIN_NOTIONAL" "notional") with
  | .ok pt, .ok fv, .ok mn =>
    .ok [("symbol", .s info.symbol),
         ("contract_type", .s info.contractType),
         ("status", .s info.status),
         ("base_asset", .s info.baseAsset),
         ("quote_asset", .s info.quoteAsset),
         ("margin_asset", .s info.marginAsset),
         ("price_tick", .dec pt),
         ("face_value", .dec fv),
         ("min_notional_value", .dec mn)]
  | .error e, _, _ => .error e
  | .ok _, .error e, _ => .error e
  | .ok _, .ok _, .error e => .error e

/-- `BinanceCoinFutureMarketApi.parse_syminfo`: status is read from
`contractStatus` and there is no minimum-notional field. -/
def parse_syminfo_coin (info : SymbolInfo) : Except PyErr SymRule :=
  match pyDecimalOf (get_from_filters info.filters "PRICE_FILTER" "tickSize"),
      pyDecimalOf (get_from_filters info.filters "LOT_SIZE" "stepSize") with
  | .ok pt, .ok fv =>
    .ok [("symbol", .s info.symbol),
         ("contract_type", .s info.contractType),
         ("status", .s info.contractStatus),
         ("base_asset", .s info.baseAsset),
         ("quote_asset", .s info.quoteAsset),
         ("margin_asset", .s info.marginAsset),
         ("price_tick", .dec pt),
         ("face_value", .dec fv)]
  | .error e, _ => .error e
  | .ok _, .error e => .error e

/-- `BinanceUsdtSpotMarketApi.parse_syminfo`: no contract type or margin
asset, and the notional comes from the `NOTIONAL` filter's `minNotional`. -/
def parse_syminfo_spot (info : SymbolInfo) : Except PyErr SymRule :=
  match pyDecimalOf (get_from_filters info.filters "PRICE_FILTER" "tickSize"),
      pyDecimalOf (get_from_filters info.filters "LOT_SIZE" "stepSize"),
      pyDecimalOf (get_from_filters info.filters "NOTIONAL" "minNotional") with
  | .ok pt, .ok fv, .ok mn =>
    .ok [("symbol", .s info.symbol),
         ("status", .s info.status),
         ("base_asset", .s info.baseAsset),
         ("quote_asset", .s info.quoteAsset),
         ("price_tick", .dec pt),
         ("face_value", .dec fv),
         ("min_notional_value", .dec mn)]
  | .error e, _, _ => .error e
  | .ok _, .error e, _ => .error e
  | .ok _, .ok _, .error e => .error e

/-- The keys of a parsed rule, in dict insertion order. -/
def ruleKeys (r : SymRule) : List String := r.map Prod.fst

/-! Retry Executor and the four public wrapper methods.  A fallible request is
a function from the attempt index to its outcome, so repeating an attempt is
sampling the next index. -/

/-- Modelled from the spec: `util.async_retry_getter` is not under `src/`.
Per spec section 4.1 the Retry Executor runs the wrapped operation, treats any
exception as retryable, retries up to a bounded attempt count with a delay
between attempts, and surfaces the last failure once the cap is reached.
`retryGo op i n` performs attempt `i` with `n` further attempts allowed. -/
def retryGo (op : Nat → Except PyErr α) : Nat → Nat → Except PyErr α
  | i, 0 => op i
  | i, n + 1 =>
    match op i with
    | .ok a => .ok a
    | .error _ => retryGo op (i + 1) n

/-- Modelled from the spec: `util.async_retry_getter` with an attempt cap of
`cap` (the bound itself is a policy detail of the missing module). -/
def async_retry_getter (op : Nat → Except PyErr α) (cap : Nat) : Except PyErr α :=
  retryGo op 0 (cap - 1)

/-- A pandas timestamp produced by `pd.to_datetime(ms, unit='ms', utc=True)`
followed by the time-zone conversion for display; the instant is the ms
value. -/
structure PdTimestamp where
  ms : Int
deriving DecidableEq, Repr

def pd_to_datetime (ms : Int) : PdTimestamp := ⟨ms⟩

/-- `BinanceMarketApi.get_timestamp_and_weight`: retry the `/time` request,
then convert the server time. -/
def get_timestamp_and_weight (op : Nat → Except PyErr (Int × Int)) (cap : Nat) :
    Except PyErr (PdTimestamp × Int) :=
  match async_retry_getter op cap with
  | .ok tw => .ok (pd_to_datetime tw.1, tw.2)
  | .error e => .error e

/-- One raw `/klines` row (the 12-tuple returned by the endpoint). -/
structure RawKline where
  open_time : Int
  o : Rat
  h : Rat
  l : Rat
  c : Rat
  v : Rat
  close_time : Int
  quote_volume : Rat
  trade_num : Rat
  tb_base : Rat
  tb_quote : Rat
  ignored : Rat
deriving DecidableEq, Repr

/-- One row of the dataframe built by `get_candle`: times converted, the
`ignore` column dropped. -/
def parse_kline (k : RawKline) : Candle :=
  ⟨k.open_time, k.o, k.h, k.l, k.c, k.v, k.close_time, k.quote_volume,
    k.trade_num, k.tb_base, k.tb_quote⟩

def parse_klines (data : List RawKline) : List Candle := data.map parse_kline

/-- `BinanceMarketApi.get_candle`: retry the `/klines` request, then build the
dataframe. -/
def get_candle (op : Nat → Except PyErr (List RawKline)) (cap : Nat) :
    Except PyErr (List Candle) :=
  match async_retry_getter op cap with
  | .ok data => .ok (parse_klines data)
  | .error e => .error e

/-- The `/exchangeInfo` payload part read by `get_syminfo`. -/
structure ExchangeInfo where
  symbols : List SymbolInfo
deriving DecidableEq, Repr

/-- The `for info in exg_info['symbols']` loop of `get_syminfo`: parse each
entry in order, the first raised exception aborting the whole call. -/
def parse_all_syminfo (parse : SymbolInfo → Except PyErr SymRule) :
    List SymbolInfo → Except PyErr (List (String × SymRule))
  | [] => .ok []
  | info :: rest =>
    match parse info with
    | .error e => .error e
    | .ok r =>
      match parse_all_syminfo parse rest with
      | .error e => .error e
      | .ok tl => .ok ((info.symbol, r) :: tl)

/-- `BinanceMarketApi.get_syminfo`: retry the `/exchangeInfo` request, then
parse every symbol entry with the variant's `parse_syminfo`. -/
def get_syminfo (parse : SymbolInfo → Except PyErr SymRule)
    (op : Nat → Except PyErr ExchangeInfo) (cap : Nat) :
    Except PyErr (List (String × SymRule)) :=
  match async_retry_getter op cap with
  | .ok exg => parse_all_syminfo parse exg.symbols
  | .error e => .error e

/-- One entry of the `/premiumIndex` response. -/
structure PremiumEntry where
  symbol : String
  lastFundingRate : String
deriving DecidableEq, Repr

/-- `BinanceMarketApi.get_funding_rate`: unlike the other three wrappers it
awaits `aioreq_premium_index` directly — a single attempt, not routed through
`async_retry_getter` — then builds the symbol/rate records, coercing an
unparseable `lastFundingRate` to NaN.  The spot variant's request method is
`pass`, i.e. it returns `None`, and the list comprehension over `None` raises
`TypeError`. -/
def get_funding_rate (op : Nat → Except PyErr (Option (List PremiumEntry))) :
    Except PyErr (List (String × Option Rat)) :=
  match op 0 with
  | .error e => .error e
  | .ok none => .error .typeError
  | .ok (some data) =>
    .ok (data.map (fun d => (d.symbol, pd_to_numeric_coerce d.lastFundingRate)))

/-- `BinanceUsdtSpotMarketApi.aioreq_premium_index` is `pass`: it returns
Python `None` without raising. -/
def aioreq_premium_index_spot : Nat → Except PyErr (Option (List PremiumEntry)) :=
  fun _ => .ok none

theorem async_retry_getter_recovers {α : Type} (op : Nat → Except PyErr α)
    (e : PyErr) (v : α) (cap : Nat) (hcap : 2 ≤ cap)
    (h0 : op 0 = .error e) (h1 : op 1 = .ok v) :
    async_retry_getter op cap = .ok v := by
  match cap, hcap with
  | n + 2, _ =>
    show retryGo op 0 (n + 1) = .ok v
    rw [retryGo, h0]
    cases n with
    | zero => simpa [retryGo] using h1
    | succ m => simp [retryGo, h1]

/-- Request that fails on its first attempt and succeeds on the second. -/
def flakyPremium : Nat → Except PyErr (Option (List PremiumEntry)) :=
  fun n => if n = 0 then .error (.netError "boom") else .ok (some [])

/-- C4, counterexample.  `get_funding_rate` awaits its request method directly:
a single-attempt failure that the Retry Executor would have recovered from is
propagated immediately, so not all four wrappers route through the Retry
Executor. -/
theorem get_funding_rate_not_retried :
    get_funding_rate flakyPremium = .error (.netError "boom") ∧
    async_retry_getter flakyPremium 3 = .ok (some []) :=
  ⟨rfl, rfl⟩

/-- C4, amended.  Each request method is one network attempt; the
timestamp/weight, candle and exchange-rules wrappers route it through the
Retry Executor — a failure on the first attempt with a success on the second
yields the success — while the funding-rate wrapper performs the single
attempt directly, propagating its failure. -/
theorem wrappers_retry_routing (cap : Nat) (hcap : 2 ≤ cap) (e : PyErr)
    (opT : Nat → Except PyErr (Int × Int)) (vT : Int × Int)
    (hT0 : opT 0 = .error e) (hT1 : opT 1 = .ok vT)
    (opC : Nat → Except PyErr (List RawKline)) (vC : List RawKline)
    (hC0 : opC 0 = .error e) (hC1 : opC 1 = .ok vC)
    (opX : Nat → Except PyErr ExchangeInfo) (vX : ExchangeInfo)
    (hX0 : opX 0 = .error e) (hX1 : opX 1 = .ok vX)
    (parse : SymbolInfo → Except PyErr SymRule)
    (opF : Nat → Except PyErr (Option (List PremiumEntry))) (eF : PyErr)
    (hF : opF 0 = .error eF) :
    get_timestamp_and_weight opT cap = .ok (pd_to_datetime vT.1, vT.2) ∧
    get_candle opC cap = .ok (parse_klines vC) ∧
    get_syminfo parse opX cap = parse_all_syminfo parse vX.symbols ∧
    get_funding_rate opF = .error eF := by
  refine ⟨?_, ?_, ?_, ?_⟩
  · rw [get_timestamp_and_weight, async_retry_getter_recovers opT e vT cap hcap hT0 hT1]
  · rw [get_candle, async_retry_getter_recovers opC e vC cap hcap hC0 hC1]
  · rw [get_syminfo, async_retry_getter_recovers opX e vX cap hcap hX0 hX1]
  · rw [get_funding_rate, hF]

def flakyTs : Nat → Except PyErr (Int × Int) :=
  fun n => if n = 0 then .error (.netError "x") else .ok (1700000000000, 5)

def flakyKl : Nat → Except PyErr (List RawKline) :=
  fun n => if n = 0 then .error (.netError "x") else .ok []

def flakyExg : Nat → Except PyErr ExchangeInfo :=
  fun n => if n = 0 then .error (.netError "x") else .ok ⟨[]⟩

theorem wrappers_retry_routing_witness :
    get_timestamp_and_weight flakyTs 2 = .ok (pd_to_datetime 1700000000000, 5) ∧
    get_candle flakyKl 2 = .ok (parse_klines []) ∧
    get_syminfo parse_syminfo_usdt flakyExg 2 =
      parse_all_syminfo parse_syminfo_usdt (ExchangeInfo.mk []).symbols ∧
    get_funding_rate flakyPremium = .error (.netError "boom") :=
  wrappers_retry_routing 2 (by decide) (.netError "x")
    flakyTs (1700000000000, 5) rfl rfl
    flakyKl [] rfl rfl
    flakyExg ⟨[]⟩ rfl rfl
    parse_syminfo_usdt
    flakyPremium (.netError "boom") rfl

/-- C5, counterexample.  The spot variant's funding-rate operation does not
return the empty mapping. -/
theorem spot_funding_rate_not_empty :
    get_funding_rate aioreq_premium_index_spot ≠ .ok [] := by
  intro h
  simp [get_funding_rate, aioreq_premium_index_spot] at h

/-- C5, amended.  For the spot variant `aioreq_premium_index` is `pass`, so it
returns `None`, and `get_funding_rate` raises `TypeError` when it iterates
over it — the operation fails instead of returning an empty mapping. -/
theorem spot_funding_rate_raises :
    get_funding_rate aioreq_premium_index_spot = .error .typeError :=
  rfl

/-- C10.  If one `/premiumIndex` entry has an unparseable `lastFundingRate`,
`get_funding_rate` does not raise: the result keeps every entry in order, the
bad entry's rate is coerced to NaN (`none`), and every entry's record is the
symbol paired with the coercion of its own rate string. -/
theorem get_funding_rate_coerces_bad_rate
    (op : Nat → Except PyErr (Option (List PremiumEntry)))
    (entries : List PremiumEntry) (i : Nat) (hi : i < entries.length)
    (hop : op 0 = .ok (some entries))
    (hbad : pd_to_numeric_coerce entries[i].lastFundingRate = none) :
    ∃ out, get_funding_rate op = .ok out ∧
      out.length = entries.length ∧
      (∀ (j : Nat), out[j]? = (entries[j]?).map
        (fun (d : PremiumEntry) => (d.symbol, pd_to_numeric_coerce d.lastFundingRate))) ∧
      out[i]? = some (entries[i].symbol, none) := by
  refine ⟨entries.map (fun d => (d.symbol, pd_to_numeric_coerce d.lastFundingRate)),
    ?_, by simp, ?_, ?_⟩
  · rw [get_funding_rate, hop]
  · intro j
    simp [List.getElem?_map]
  · rw [List.getElem?_map, List.getElem?_eq_getElem hi]
    simp [hbad]

def demoPremium : List PremiumEntry :=
  [⟨"BTCUSDT", "0.0001"⟩, ⟨"ETHUSDT", "abc"⟩]

theorem get_funding_rate_coerces_bad_rate_witness :
    ∃ out, get_funding_rate (fun _ => .ok (some demoPremium)) = .ok out ∧
      out.length = demoPremium.length ∧
      (∀ (j : Nat), out[j]? = (demoPremium[j]?).map
        (fun (d : PremiumEntry) => (d.symbol, pd_to_numeric_coerce d.lastFundingRate))) ∧
      out[1]? = some (demoPremium[1].symbol, none) :=
  get_funding_rate_coerces_bad_rate (fun _ => .ok (some demoPremium))
    demoPremium 1 (by decide) rfl rfl

instance {e a : Type} [DecidableEq e] [DecidableEq a] : DecidableEq (Except e a) :=
  fun x y =>
  match x, y with
  | .error a1, .error a2 =>
    if h : a1 = a2 then isTrue (h ▸ rfl) else
      isFalse (fun he => by cases he; exact h rfl)
  | .ok a1, .ok a2 =>
    if h : a1 = a2 then isTrue (h ▸ rfl) else
      isFalse (fun he => by cases he; exact h rfl)
  | .error _, .ok _ => isFalse (fun he => by cases he)
  | .ok _, .error _ => isFalse (fun he => by cases he)

/-- Symbol entry whose filters satisfy all three variants' parsers. -/
def demoInfo : SymbolInfo :=
  ⟨"BTCUSDT", "TRADING", "PERPETUAL", "TRADING", "BTC", "USDT", "USDT",
    [⟨"PRICE_FILTER", [("tickSize", "0.10")]⟩,
     ⟨"LOT_SIZE", [("stepSize", "0.001")]⟩,
     ⟨"MIN_NOTIONAL", [("notional", "5")]⟩,
     ⟨"NOTIONAL", [("minNotional", "10.00")]⟩]⟩

/-- C6, counterexample.  On one and the same symbol entry the three variants
do not return the same field set: spot lacks `contract_type` and
`margin_asset`, coin futures lacks `min_notional_value`. -/
theorem parse_syminfo_shapes_differ :
    (parse_syminfo_usdt demoInfo).map ruleKeys =
      .ok ["symbol", "contract_type", "status", "base_asset", "quote_asset",
           "margin_asset", "price_tick", "face_value", "min_notional_value"] ∧
    (parse_syminfo_coin demoInfo).map ruleKeys =
      .ok ["symbol", "contract_type", "status", "base_asset", "quote_asset",
           "margin_asset", "price_tick", "face_value"] ∧
    (parse_syminfo_spot demoInfo).map ruleKeys =
      .ok ["symbol", "status", "base_asset", "quote_asset", "price_tick",
           "face_value", "min_notional_value"] ∧
    (parse_syminfo_usdt demoInfo).map ruleKeys ≠
      (parse_syminfo_spot demoInfo).map ruleKeys ∧
    (parse_syminfo_usdt demoInfo).map ruleKeys ≠
      (parse_syminfo_coin demoInfo).map ruleKeys := by
  refine ⟨by decide, by decide, by decide, by decide, by decide⟩

/-- C6, amended.  Whenever all three parsers succeed on an entry, each returns
a fixed per-variant key list sharing the common core `symbol`, `status`,
`base_asset`, `quote_asset`, `price_tick`, `face_value`, with only the
sourcing differing (coin futures reads `status` from `contractStatus`); but
the full shapes differ: spot omits `contract_type` and `margin_asset`, coin
futures omits `min_notional_value`. -/
theorem parse_syminfo_per_variant_shape (info : SymbolInfo) (ru rc rs : SymRule)
    (hu : parse_syminfo_usdt info = .ok ru)
    (hc : parse_syminfo_coin info = .ok rc)
    (hs : parse_syminfo_spot info = .ok rs) :
    ruleKeys ru = ["symbol", "contract_type", "status", "base_asset",
      "quote_asset", "margin_asset", "price_tick", "face_value",
      "min_notional_value"] ∧
    ruleKeys rc = ["symbol", "contract_type", "status", "base_asset",
      "quote_asset", "margin_asset", "price_tick", "face_value"] ∧
    ruleKeys rs = ["symbol", "status", "base_asset", "quote_asset",
      "price_tick", "face_value", "min_notional_value"] ∧
    ru.lookup "status" = some (.s info.status) ∧
    rc.lookup "status" = some (.s info.contractStatus) ∧
    rs.lookup "status" = some (.s info.status) := by
  have hru : ruleKeys ru = ["symbol", "contract_type", "status", "base_asset",
      "quote_asset", "margin_asset", "price_tick", "face_value",
      "min_notional_value"] ∧ ru.lookup "status" = some (.s info.status) := by
    cases h1 : pyDecimalOf (get_from_filters info.filters "PRICE_FILTER" "tickSize") with
    | error e => simp [parse_syminfo_usdt, h1] at hu
    | ok pt =>
      cases h2 : pyDecimalOf (get_from_filters info.filters "LOT_SIZE" "stepSize") with
      | error e => simp [parse_syminfo_usdt, h1, h2] at hu
      | ok fv =>
        cases h3 : pyDecimalOf (get_from_filters info.filters "MIN_NOTIONAL" "notional") with
        | error e => simp [parse_syminfo_usdt, h1, h2, h3] at hu
        | ok mn =>
          simp only [parse_syminfo_usdt, h1, h2, h3, Except.ok.injEq] at hu
          subst hu
          exact ⟨rfl, rfl⟩
  have hrc : ruleKeys rc = ["symbol", "contract_type", "status", "base_asset",
      "quote_asset", "margin_asset", "price_tick", "face_value"] ∧
      rc.lookup "status" = some (.s info.contractStatus) := by
    cases h1 : pyDecimalOf (get_from_filters info.filters "PRICE_FILTER" "tickSize") with
    | error e => simp [parse_syminfo_coin, h1] at hc
    | ok pt =>
      cases h2 : pyDecimalOf (get_from_filters info.filters "LOT_SIZE" "stepSize") with
      | error e => simp [parse_syminfo_coin, h1, h2] at hc
      | ok fv =>
        simp only [parse_syminfo_coin, h1, h2, Except.ok.injEq] at hc
        subst hc
        exact ⟨rfl, rfl⟩
  have hrs : ruleKeys rs = ["symbol", "status", "base_asset", "quote_asset",
      "price_tick", "face_value", "min_notional_value"] ∧
      rs.lookup "status" = some (.s info.status) := by
    cases h1 : pyDecimalOf (get_from_filters info.filters "PRICE_FILTER" "tickSize") with
    | error e => simp [parse_syminfo_spot, h1] at hs
    | ok pt =>
      cases h2 : pyDecimalOf (get_from_filters info.filters "LOT_SIZE" "stepSize") with
      | error e => simp [parse_syminfo_spot, h1, h2] at hs
      | ok fv =>
        cases h3 : pyDecimalOf (get_from_filters info.filters "NOTIONAL" "minNotional") with
        | error e => simp [parse_syminfo_spot, h1, h2, h3] at hs
        | ok mn =>
          simp only [parse_syminfo_spot, h1, h2, h3, Except.ok.injEq] at hs
          subst hs
          exact ⟨rfl, rfl⟩
  exact ⟨hru.1, hrc.1, hrs.1, hru.2, hrc.2, hrs.2⟩

theorem parse_syminfo_per_variant_shape_witness :
    ruleKeys [("symbol", .s "BTCUSDT"), ("contract_type", .s "PERPETUAL"),
        ("status", .s "TRADING"), ("base_asset", .s "BTC"),
        ("quote_asset", .s "USDT"), ("margin_asset", .s "USDT"),
        ("price_tick", .dec ⟨false, [1, 0], -2⟩),
        ("face_value", .dec ⟨false, [1], -3⟩),
        ("min_notional_value", .dec ⟨false, [5], 0⟩)] =
      ["symbol", "contract_type", "status", "base_asset", "quote_asset",
       "margin_asset", "price_tick", "face_value", "min_notional_value"] ∧
    ruleKeys [("symbol", .s "BTCUSDT"), ("contract_type", .s "PERPETUAL"),
        ("status", .s "TRADING"), ("base_asset", .s "BTC"),
        ("quote_asset", .s "USDT"), ("margin_asset", .s "USDT"),
        ("price_tick", .dec ⟨false, [1, 0], -2⟩),
        ("face_value", .dec ⟨false, [1], -3⟩)] =
      ["symbol", "contract_type", "status", "base_asset", "quote_asset",
       "margin_asset", "price_tick", "face_value"] ∧
    ruleKeys [("symbol", .s "BTCUSDT"), ("status", .s "TRADING"),
        ("base_asset", .s "BTC"), ("quote_asset", .s "USDT"),
        ("price_tick", .dec ⟨false, [1, 0], -2⟩),
        ("face_value", .dec ⟨false, [1], -3⟩),
        ("min_notional_value", .dec ⟨false, [1, 0, 0, 0], -2⟩)] =
      ["symbol", "status", "base_asset", "quote_asset", "price_tick",
       "face_value", "min_notional_value"] ∧
    List.lookup "status" [("symbol", RuleVal.s "BTCUSDT"),
        ("contract_type", .s "PERPETUAL"), ("status", .s "TRADING"),
        ("base_asset", .s "BTC"), ("quote_asset", .s "USDT"),
        ("margin_asset", .s "USDT"), ("price_tick", .dec ⟨false, [1, 0], -2⟩),
        ("face_value", .dec ⟨false, [1], -3⟩),
        ("min_notional_value", .dec ⟨false, [5], 0⟩)] =
      some (.s demoInfo.status) ∧
    List.lookup "status" [("symbol", RuleVal.s "BTCUSDT"),
        ("contract_type", .s "PERPETUAL"), ("status", .s "TRADING"),
        ("base_asset", .s "BTC"), ("quote_asset", .s "USDT"),
        ("margin_asset", .s "USDT"), ("price_tick", .dec ⟨false, [1, 0], -2⟩),
        ("face_value", .dec ⟨false, [1], -3⟩)] =
      some (.s demoInfo.contractStatus) ∧
    List.lookup "status" [("symbol", RuleVal.s "BTCUSDT"),
        ("status", .s "TRADING"), ("base_asset", .s "BTC"),
        ("quote_asset", .s "USDT"), ("price_tick", .dec ⟨false, [1, 0], -2⟩),
        ("face_value", .dec ⟨false, [1], -3⟩),
        ("min_notional_value", .dec ⟨false, [1, 0, 0, 0], -2⟩)] =
      some (.s demoInfo.status) :=
  parse_syminfo_per_variant_shape demoInfo _ _ _ (by decide) (by decide) (by decide)

/-- C9.  `get_candle` builds the dataframe row-for-row from the `/klines`
payload without reordering, so whenever the payload satisfies the REST
boundary contract — rows ordered by non-decreasing open time, each close time
strictly after its own open time — the returned candle sequence has
non-decreasing `candle_begin_time` and each row's `close_time` strictly above
its own `candle_begin_time`. -/
theorem get_candle_ordered (op : Nat → Except PyErr (List RawKline)) (cap : Nat)
    (raw : List RawKline) (hop : async_retry_getter op cap = .ok raw)
    (hord : List.Sorted (· ≤ ·) (raw.map RawKline.open_time))
    (hct : ∀ k ∈ raw, k.open_time < k.close_time) :
    ∃ df, get_candle op cap = .ok df ∧
      List.Sorted (· ≤ ·) (df.map Candle.candle_begin_time) ∧
      ∀ c ∈ df, c.candle_begin_time < c.close_time := by
  refine ⟨parse_klines raw, ?_, ?_, ?_⟩
  · rw [get_candle, hop]
  · have hmap : (parse_klines raw).map Candle.candle_begin_time =
        raw.map RawKline.open_time := by
      simp [parse_klines, List.map_map]
      intro a _
      rfl
    rw [hmap]
    exact hord
  · intro c hc
    obtain ⟨k, hk, rfl⟩ := List.mem_map.1 hc
    exact hct k hk

def demoRawKlines : List RawKline :=
  [⟨60000, 1, 1, 1, 1, 1, 119999, 1, 1, 1, 1, 0⟩,
   ⟨120000, 1, 1, 1, 1, 1, 179999, 1, 1, 1, 1, 0⟩]

theorem get_candle_ordered_witness :
    ∃ df, get_candle (fun _ => .ok demoRawKlines) 5 = .ok df ∧
      List.Sorted (· ≤ ·) (df.map Candle.candle_begin_time) ∧
      ∀ c ∈ df, c.candle_begin_time < c.close_time :=
  get_candle_ordered (fun _ => .ok demoRawKlines) 5 demoRawKlines rfl
    (by decide) (by decide)

theorem parse_all_syminfo_error_of_mem (parse : SymbolInfo → Except PyErr SymRule)
    (l : List SymbolInfo) (info : SymbolInfo) (e : PyErr)
    (hmem : info ∈ l) (he : parse info = .error e) :
    ∃ e2, parse_all_syminfo parse l = .error e2 := by
  induction l with
  | nil => simp at hmem
  | cons a t ih =>
    cases ha : parse a with
    | error e1 => exact ⟨e1, by simp [parse_all_syminfo, ha]⟩
    | ok r =>
      rcases List.mem_cons.1 hmem with rfl | hmt
      · rw [ha] at he
        cases he
      · obtain ⟨e2, he2⟩ := ih hmt
        exact ⟨e2, by simp [parse_all_syminfo, ha, he2]⟩

/-- C8.  If one of the three decimal filter fields of a symbol entry holds a
string that fails to parse as an exact decimal, `parse_syminfo` raises for
that symbol, and `get_syminfo` on any exchange-info payload containing the
entry raises as well — no mapping containing a partial rule is ever
returned. -/
theorem syminfo_fails_closed (info : SymbolInfo) (s : String)
    (hbad : Dec_parse s = none)
    (hfield :
      get_from_filters info.filters "PRICE_FILTER" "tickSize" = .ok (some s) ∨
      get_from_filters info.filters "LOT_SIZE" "stepSize" = .ok (some s) ∨
      get_from_filters info.filters "MIN_NOTIONAL" "notional" = .ok (some s)) :
    (∃ e, parse_syminfo_usdt info = .error e) ∧
    (∀ (op : Nat → Except PyErr ExchangeInfo) (cap : Nat) (exg : ExchangeInfo),
      async_retry_getter op cap = .ok exg → info ∈ exg.symbols →
      ∃ e, get_syminfo parse_syminfo_usdt op cap = .error e) := by
  have hparse : ∃ e, parse_syminfo_usdt info = .error e := by
    rcases hfield with h | h | h
    · have h1 : pyDecimalOf (get_from_filters info.filters "PRICE_FILTER" "tickSize") =
          .error .invalidOperation := by
        rw [h]
        simp [pyDecimalOf, hbad]
      exact ⟨.invalidOperation, by simp [parse_syminfo_usdt, h1]⟩
    · have h2 : pyDecimalOf (get_from_filters info.filters "LOT_SIZE" "stepSize") =
          .error .invalidOperation := by
        rw [h]
        simp [pyDecimalOf, hbad]
      cases h1 : pyDecimalOf (get_from_filters info.filters "PRICE_FILTER" "tickSize") with
      | error e1 => exact ⟨e1, by simp [parse_syminfo_usdt, h1]⟩
      | ok pt => exact ⟨.invalidOperation, by simp [parse_syminfo_usdt, h1, h2]⟩
    · have h3 : pyDecimalOf (get_from_filters info.filters "MIN_NOTIONAL" "notional") =
          .error .invalidOperation := by
        rw [h]
        simp [pyDecimalOf, hbad]
      cases h1 : pyDecimalOf (get_from_filters info.filters "PRICE_FILTER" "tickSize") with
      | error e1 => exact ⟨e1, by simp [parse_syminfo_usdt, h1]⟩
      | ok pt =>
        cases h2 : pyDecimalOf (get_from_filters info.filters "LOT_SIZE" "stepSize") with
        | error e2 => exact ⟨e2, by simp [parse_syminfo_usdt, h1, h2]⟩
        | ok fv => exact ⟨.invalidOperation, by simp [parse_syminfo_usdt, h1, h2, h3]⟩
  refine ⟨hparse, ?_⟩
  intro op cap exg hop hmem
  obtain ⟨e, he⟩ := hparse
  obtain ⟨e2, he2⟩ := parse_all_syminfo_error_of_mem parse_syminfo_usdt
    exg.symbols info e hmem he
  exact ⟨e2, by rw [get_syminfo, hop]; exact he2⟩

/-- Symbol entry whose `tickSize` is not a decimal numeric string. -/
def badTickInfo : SymbolInfo :=
  ⟨"XRPUSDT", "TRADING", "PERPETUAL", "TRADING", "XRP", "USDT", "USDT",
    [⟨"PRICE_FILTER", [("tickSize", "abc")]⟩,
     ⟨"LOT_SIZE", [("stepSize", "0.1")]⟩,
     ⟨"MIN_NOTIONAL", [("notional", "5")]⟩]⟩

theorem syminfo_fails_closed_witness :
    (∃ e, parse_syminfo_usdt badTickInfo = .error e) ∧
      (∃ e, get_syminfo parse_syminfo_usdt (fun _ => .ok ⟨[badTickInfo]⟩) 3 =
        .error e) := by
  have h := syminfo_fails_closed badTickInfo "abc" rfl (Or.inl rfl)
  exact ⟨h.1, h.2 (fun _ => .ok ⟨[badTickInfo]⟩) 3 ⟨[badTickInfo]⟩ rfl (by decide)⟩

theorem digitChar_eq_nine (n : Nat) (h : 9 ≤ n) : digitChar n = '9' := by
  obtain ⟨m, rfl⟩ : ∃ m, n = m + 9 := ⟨n - 9, by omega⟩
  rfl

theorem digitChar_props (n : Nat) : (digitChar n).isDigit = true ∧
    notExpMark (digitChar n) = true ∧ digitChar n ≠ '.' ∧
    digitChar n ≠ '-' ∧ digitChar n ≠ '+' := by
  rcases Nat.lt_or_ge n 9 with h | h
  · interval_cases n <;> decide
  · rw [digitChar_eq_nine n h]
    decide

theorem digitVal_digitChar (n : Nat) (h : n < 10) : digitVal (digitChar n) = n := by
  interval_cases n <;> rfl

theorem digitsStr_map_digitVal (l : List Nat) (hd : ∀ x ∈ l, x < 10) :
    (digitsStr l).map digitVal = l := by
  induction l with
  | nil => rfl
  | cons x t ih =>
    have hx := digitVal_digitChar x (hd x (List.mem_cons_self x t))
    have ht := ih (fun b hb => hd b (List.mem_cons_of_mem x hb))
    simp only [digitsStr, List.map_cons] at ht ⊢
    rw [hx, ht]

theorem takeWhile_all_eq {α : Type} (p : α → Bool) :
    ∀ l : List α, (∀ a ∈ l, p a = true) →
      l.takeWhile p = l ∧ l.dropWhile p = []
  | [], _ => ⟨rfl, rfl⟩
  | a :: t, h => by
    have ht := takeWhile_all_eq p t (fun b hb => h b (List.mem_cons_of_mem a hb))
    simp [List.takeWhile_cons, List.dropWhile_cons, h a (List.mem_cons_self a t),
      ht.1, ht.2]

theorem takeWhile_boundary {α : Type} (p : α → Bool) :
    ∀ (l1 : List α) (x : α) (l2 : List α), (∀ a ∈ l1, p a = true) →
      p x = false →
      (l1 ++ x :: l2).takeWhile p = l1 ∧ (l1 ++ x :: l2).dropWhile p = x :: l2
  | [], x, l2, _, hx => by
    simp [List.takeWhile_cons, List.dropWhile_cons, hx]
  | a :: t, x, l2, h, hx => by
    have ht := takeWhile_boundary p t x l2
      (fun b hb => h b (List.mem_cons_of_mem a hb)) hx
    simp [List.takeWhile_cons, List.dropWhile_cons, h a (List.mem_cons_self a t),
      ht.1, ht.2]

theorem stripZeros_replicate_append (n : Nat) (l : List Nat) :
    stripZeros (List.replicate n 0 ++ l) = stripZeros l := by
  induction n with
  | zero => simp
  | succ m ih => simp [List.replicate_succ, stripZeros, ih]

theorem normCoeff_replicate_append (k : Nat) (d : PyDec) (hv : ValidDec d) :
    normCoeff (List.replicate k 0 ++ d.coeff) = d.coeff := by
  obtain ⟨hne, -, hlead⟩ := hv
  rw [normCoeff, stripZeros_replicate_append]
  cases hc : d.coeff with
  | nil => exact absurd hc hne
  | cons x t =>
    by_cases hx : x = 0
    · have h0 : d.coeff = [0] := hlead (by rw [hc, hx]; rfl)
      rw [hc] at h0
      cases h0
      rfl
    · simp [stripZeros, hx]

theorem digitsStr_all_isDigit (l : List Nat) :
    ∀ c ∈ digitsStr l, Char.isDigit c = true := by
  intro c hc
  obtain ⟨x, -, rfl⟩ := List.mem_map.1 hc
  exact (digitChar_props x).1

theorem digitsStr_all_notExp (l : List Nat) :
    ∀ c ∈ digitsStr l, notExpMark c = true := by
  intro c hc
  obtain ⟨x, -, rfl⟩ := List.mem_map.1 hc
  exact (digitChar_props x).2.1

/-- Reduce `parseDec` when the input splits into a sign, an exponent-free
mantissa, and no exponent clause. -/
theorem parseDec_eq_of_mant (cs body : List Char) (neg : Bool)
    (hsign : splitSign cs = (neg, body))
    (hne : ∀ c ∈ body, notExpMark c = true)
    (raw : List Nat) (flen : Nat)
    (hm : parseMant body = some (raw, flen)) :
    parseDec cs = some ⟨neg, normCoeff raw, 0 - (flen : Int)⟩ := by
  have hsplit := takeWhile_all_eq notExpMark body hne
  simp only [parseDec, hsign, splitUntilExp, hsplit.1, hsplit.2, parseExpPart, hm]

theorem parseMant_digits (l : List Nat) (hne : l ≠ []) :
    parseMant (digitsStr l) = some ((digitsStr l).map digitVal, 0) := by
  have hsplit := takeWhile_all_eq Char.isDigit (digitsStr l) (digitsStr_all_isDigit l)
  have hip : (digitsStr l).isEmpty = false := by
    cases l with
    | nil => exact absurd rfl hne
    | cons x t => rfl
  simp only [parseMant, splitDigits, hsplit.1, hsplit.2, hip, Bool.false_eq_true,
    if_false]

theorem parseMant_point (l1 l2 : List Nat) (h1 : l1 ≠ []) :
    parseMant (digitsStr l1 ++ '.' :: digitsStr l2) =
      some ((digitsStr l1 ++ digitsStr l2).map digitVal, (digitsStr l2).length) := by
  have hsplit := takeWhile_boundary Char.isDigit (digitsStr l1) '.' (digitsStr l2)
    (digitsStr_all_isDigit l1) (by decide)
  have hip : (digitsStr l1).isEmpty = false := by
    cases l1 with
    | nil => exact absurd rfl h1
    | cons x t => rfl
  have hfr : (digitsStr l2).all Char.isDigit = true :=
    List.all_eq_true.2 (digitsStr_all_isDigit l2)
  simp only [parseMant, splitDigits, hsplit.1, hsplit.2, hfr, hip,
    Bool.false_and, Bool.not_false, Bool.and_true, if_true]

/-- Parsing inverts printing on every well-formed decimal whose `str()` is in
fixed-point notation. -/
theorem parseDec_decRender (d : PyDec) (hv : ValidDec d) (hf : FixedForm d) :
    parseDec (decRender d) = some d := by
  obtain ⟨hne, hdig, hlead⟩ := hv
  obtain ⟨hexp, hadj⟩ := hf
  have hnc : normCoeff d.coeff = d.coeff := by
    have := normCoeff_replicate_append 0 d ⟨hne, hdig, hlead⟩
    simpa using this
  have hsign_of : ∀ c0 rest, decRenderBody d = digitChar c0 :: rest →
      splitSign (decRender d) = (d.neg, decRenderBody d) := by
    intro c0 rest hb
    rw [decRender]
    cases hn : d.neg
    · rw [if_neg (by simp [hn]), hb]
      simp [splitSign, (digitChar_props c0).2.2.2.1, (digitChar_props c0).2.2.2.2]
    · rw [if_pos (by simp [hn])]
      simp [splitSign, hb]
  by_cases h0 : d.exp = 0
  · -- fixed point, integer: the body is just the coefficient digits
    have hbody : decRenderBody d = digitsStr d.coeff := by
      rw [decRenderBody, if_pos ⟨hexp, hadj⟩, if_pos h0]
    obtain ⟨c0, t, hc⟩ : ∃ c0 t, d.coeff = c0 :: t := by
      cases hc : d.coeff with
      | nil => exact absurd hc hne
      | cons a b => exact ⟨a, b, rfl⟩
    have hsign := hsign_of c0 (digitsStr t) (by rw [hbody, hc]; rfl)
    have hm := parseMant_digits d.coeff hne
    rw [digitsStr_map_digitVal d.coeff hdig] at hm
    have hres := parseDec_eq_of_mant (decRender d) (decRenderBody d) d.neg hsign
      (by rw [hbody]; exact digitsStr_all_notExp d.coeff) d.coeff 0
      (by rw [hbody]; exact hm)
    have hee : (0 : Int) - ((0 : Nat) : Int) = d.exp := by omega
    rw [hres, hnc, hee]
  · -- the exponent is strictly negative
    have hexplt : d.exp < 0 := lt_of_le_of_ne hexp h0
    by_cases h1 : (d.coeff.length : Int) > -d.exp
    · -- fixed point with digits on both sides of the point
      have hbody : decRenderBody d =
          digitsStr (d.coeff.take ((d.coeff.length : Int) + d.exp).toNat) ++
            '.' :: digitsStr (d.coeff.drop ((d.coeff.length : Int) + d.exp).toNat) := by
        rw [decRenderBody, if_pos ⟨hexp, hadj⟩, if_neg h0, if_pos h1]
      have htake_ne : d.coeff.take ((d.coeff.length : Int) + d.exp).toNat ≠ [] := by
        intro habs
        have := congrArg List.length habs
        simp only [List.length_take, List.length_nil] at this
        omega
      obtain ⟨c0, t0, htk⟩ : ∃ c0 t0,
          d.coeff.take ((d.coeff.length : Int) + d.exp).toNat = c0 :: t0 := by
        cases htk : d.coeff.take ((d.coeff.length : Int) + d.exp).toNat with
        | nil => exact absurd htk htake_ne
        | cons a b => exact ⟨a, b, rfl⟩
      have hsign := hsign_of c0
        (digitsStr t0 ++ '.' ::
          digitsStr (d.coeff.drop ((d.coeff.length : Int) + d.exp).toNat))
        (by rw [hbody, htk]; rfl)
      have hm := parseMant_point
        (d.coeff.take ((d.coeff.length : Int) + d.exp).toNat)
        (d.coeff.drop ((d.coeff.length : Int) + d.exp).toNat) htake_ne
      rw [show digitsStr (d.coeff.take ((d.coeff.length : Int) + d.exp).toNat) ++
            digitsStr (d.coeff.drop ((d.coeff.length : Int) + d.exp).toNat) =
          digitsStr d.coeff by
        simp [digitsStr]] at hm
      rw [digitsStr_map_digitVal d.coeff hdig] at hm
      have hres := parseDec_eq_of_mant (decRender d) (decRenderBody d) d.neg hsign
        (by
          rw [hbody]
          intro c hcmem
          rcases List.mem_append.1 hcmem with hmem | hmem
          · exact digitsStr_all_notExp _ c hmem
          · rcases List.mem_cons.1 hmem with rfl | hmem
            · decide
            · exact digitsStr_all_notExp _ c hmem)
        d.coeff (digitsStr (d.coeff.drop ((d.coeff.length : Int) + d.exp).toNat)).length
        (by rw [hbody]; exact hm)
      have hee : (0 : Int) -
          ((digitsStr (d.coeff.drop ((d.coeff.length : Int) + d.exp).toNat)).length : Int) =
          d.exp := by
        simp only [digitsStr, List.length_map, List.length_drop]
        omega
      rw [hres, hnc, hee]
    · -- fixed point of the form 0.00…0ddd
      have hz : (0 : Int) ≤ -d.exp - d.coeff.length := by omega
      have hbody : decRenderBody d =
          '0' :: '.' ::
            (List.replicate (-d.exp - d.coeff.length).toNat '0' ++ digitsStr d.coeff) := by
        rw [decRenderBody, if_pos ⟨hexp, hadj⟩, if_neg h0, if_neg h1]
      have hbody2 : decRenderBody d =
          digitsStr [0] ++ '.' ::
            digitsStr (List.replicate (-d.exp - d.coeff.length).toNat 0 ++ d.coeff) := by
        rw [hbody]
        simp only [digitsStr, List.map_replicate, List.map_append, List.map_cons,
          List.map_nil, List.cons_append, List.nil_append]
        exact rfl
      have hsign := hsign_of 0
        ('.' :: (List.replicate (-d.exp - d.coeff.length).toNat '0' ++ digitsStr d.coeff))
        (by rw [hbody]; rfl)
      have hm := parseMant_point [0]
        (List.replicate (-d.exp - d.coeff.length).toNat 0 ++ d.coeff) (by decide)
      rw [show digitsStr [0] ++
            digitsStr (List.replicate (-d.exp - d.coeff.length).toNat 0 ++ d.coeff) =
          digitsStr (0 :: (List.replicate (-d.exp - d.coeff.length).toNat 0 ++ d.coeff)) by
        simp [digitsStr]] at hm
      rw [digitsStr_map_digitVal _ (by
        intro x hx
        rcases List.mem_cons.1 hx with rfl | hx
        · omega
        · rcases List.mem_append.1 hx with hx | hx
          · have := List.eq_of_mem_replicate hx
            omega
          · exact hdig x hx)] at hm
      have hres := parseDec_eq_of_mant (decRender d) (decRenderBody d) d.neg hsign
        (by
          rw [hbody2]
          intro c hcmem
          rcases List.mem_append.1 hcmem with hmem | hmem
          · exact digitsStr_all_notExp _ c hmem
          · rcases List.mem_cons.1 hmem with rfl | hmem
            · decide
            · exact digitsStr_all_notExp _ c hmem)
        (0 :: (List.replicate (-d.exp - d.coeff.length).toNat 0 ++ d.coeff))
        (digitsStr (List.replicate (-d.exp - d.coeff.length).toNat 0 ++ d.coeff)).length
        (by rw [hbody2]; exact hm)
      have hrepl : (0 : Nat) :: (List.replicate (-d.exp - d.coeff.length).toNat 0 ++ d.coeff) =
          List.replicate ((-d.exp - d.coeff.length).toNat + 1) 0 ++ d.coeff := by
        rw [List.replicate_succ]
        rfl
      rw [hrepl] at hres
      rw [normCoeff_replicate_append _ d ⟨hne, hdig, hlead⟩] at hres
      have hee : (0 : Int) -
          ((digitsStr (List.replicate (-d.exp - d.coeff.length).toNat 0 ++ d.coeff)).length : Int) =
          d.exp := by
        simp only [digitsStr, List.length_map, List.length_append, List.length_replicate]
        omega
      rw [hres, hee]

theorem Dec_parse_Dec_str (d : PyDec) (hv : ValidDec d) (hf : FixedForm d) :
    Dec_parse (Dec_str d) = some d :=
  parseDec_decRender d hv hf

/-- A string that is the fixed-point `str()` rendering of some well-formed
finite decimal. -/
def IsCanonicalFixed (s : String) : Prop :=
  ∃ d, ValidDec d ∧ FixedForm d ∧ s = Dec_str d

/-- C7, amended.  Whenever the three decimal filter strings of a symbol entry
are fixed-point renderings of well-formed decimals, `parse_syminfo` succeeds
with exactly those decimal values — parsed via `Decimal`, never through a
binary float — and `str()` of each stored field reproduces the original
string digit for digit.  (Not every successfully-parsed field round-trips:
strings whose `str()` falls in the scientific-notation range, such as
`0.0000001`, re-render as `1E-7`.) -/
theorem parse_syminfo_decimal_roundtrip (info : SymbolInfo) (ts ss ns : String)
    (h1 : get_from_filters info.filters "PRICE_FILTER" "tickSize" = .ok (some ts))
    (h2 : get_from_filters info.filters "LOT_SIZE" "stepSize" = .ok (some ss))
    (h3 : get_from_filters info.filters "MIN_NOTIONAL" "notional" = .ok (some ns))
    (hc1 : IsCanonicalFixed ts) (hc2 : IsCanonicalFixed ss)
    (hc3 : IsCanonicalFixed ns) :
    ∃ d1 d2 d3, parse_syminfo_usdt info = .ok
      [("symbol", .s info.symbol),
       ("contract_type", .s info.contractType),
       ("status", .s info.status),
       ("base_asset", .s info.baseAsset),
       ("quote_asset", .s info.quoteAsset),
       ("margin_asset", .s info.marginAsset),
       ("price_tick", .dec d1),
       ("face_value", .dec d2),
       ("min_notional_value", .dec d3)] ∧
    Dec_str d1 = ts ∧ Dec_str d2 = ss ∧ Dec_str d3 = ns := by
  obtain ⟨d1, hv1, hf1, rfl⟩ := hc1
  obtain ⟨d2, hv2, hf2, rfl⟩ := hc2
  obtain ⟨d3, hv3, hf3, rfl⟩ := hc3
  have hp1 : pyDecimalOf (get_from_filters info.filters "PRICE_FILTER" "tickSize") =
      .ok d1 := by
    rw [h1]
    simp [pyDecimalOf, Dec_parse_Dec_str d1 hv1 hf1]
  have hp2 : pyDecimalOf (get_from_filters info.filters "LOT_SIZE" "stepSize") =
      .ok d2 := by
    rw [h2]
    simp [pyDecimalOf, Dec_parse_Dec_str d2 hv2 hf2]
  have hp3 : pyDecimalOf (get_from_filters info.filters "MIN_NOTIONAL" "notional") =
      .ok d3 := by
    rw [h3]
    simp [pyDecimalOf, Dec_parse_Dec_str d3 hv3 hf3]
  exact ⟨d1, d2, d3, by simp [parse_syminfo_usdt, hp1, hp2, hp3], rfl, rfl, rfl⟩

theorem parse_syminfo_decimal_roundtrip_witness :
    ∃ d1 d2 d3, parse_syminfo_usdt demoInfo = .ok
      [("symbol", .s demoInfo.symbol),
       ("contract_type", .s demoInfo.contractType),
       ("status", .s demoInfo.status),
       ("base_asset", .s demoInfo.baseAsset),
       ("quote_asset", .s demoInfo.quoteAsset),
       ("margin_asset", .s demoInfo.marginAsset),
       ("price_tick", .dec d1),
       ("face_value", .dec d2),
       ("min_notional_value", .dec d3)] ∧
    Dec_str d1 = "0.10" ∧ Dec_str d2 = "0.001" ∧ Dec_str d3 = "5" :=
  parse_syminfo_decimal_roundtrip demoInfo "0.10" "0.001" "5" rfl rfl rfl
    ⟨⟨false, [1, 0], -2⟩, ⟨by decide, by decide, by decide⟩,
      ⟨by decide, by decide⟩, by decide⟩
    ⟨⟨false, [1], -3⟩, ⟨by decide, by decide, by decide⟩,
      ⟨by decide, by decide⟩, by decide⟩
    ⟨⟨false, [5], 0⟩, ⟨by decide, by decide, by decide⟩,
      ⟨by decide, by decide⟩, by decide⟩

/-- Symbol entry whose tick size has seven leading fractional zeros. -/
def tinyTickInfo : SymbolInfo :=
  ⟨"TINYUSDT", "TRADING", "PERPETUAL", "TRADING", "TINY", "USDT", "USDT",
    [⟨"PRICE_FILTER", [("tickSize", "0.0000001")]⟩,
     ⟨"LOT_SIZE", [("stepSize", "0.1")]⟩,
     ⟨"MIN_NOTIONAL", [("notional", "5")]⟩]⟩

/-- C7, counterexample.  A symbol whose `tickSize` string `0.0000001` parses
successfully, yet `str()` of the stored `Decimal` is `1E-7`: serialization
does not reproduce the original digits for every successfully parsed field. -/
theorem decimal_roundtrip_fails :
    (∃ r, parse_syminfo_usdt tinyTickInfo = .ok r ∧
      r.lookup "price_tick" = some (.dec ⟨false, [1], -7⟩)) ∧
    Dec_str ⟨false, [1], -7⟩ = "1E-7" ∧
    ("1E-7" : String) ≠ "0.0000001" := by
  refine ⟨⟨[("symbol", .s "TINYUSDT"), ("contract_type", .s "PERPETUAL"),
    ("status", .s "TRADING"), ("base_asset", .s "TINY"),
    ("quote_asset", .s "USDT"), ("margin_asset", .s "USDT"),
    ("price_tick", .dec ⟨false, [1], -7⟩),
    ("face_value", .dec ⟨false, [1], -1⟩),
    ("min_notional_value", .dec ⟨false, [5], 0⟩)], by decide, by decide⟩,
    by decide, by decide⟩

end Crawler
